import Mathlib

/-!
Shallow embedding of `orchestrator/oracle.go` (Ethereum event oracle loop of
the peggo bridge orchestrator), together with theorems settling the frozen
claims about it.

Modelling conventions:
* Go `uint64` values are `Nat` values below `2 ^ 64`; the one arithmetic
  operation in the source that can wrap around (`lastCheckedEthHeight +
  defaultBlocksToSearch`) is embedded with an explicit `% 2 ^ 64`.
  Subtractions in the source are guarded and cannot wrap, so plain `Nat`
  subtraction is exact there.
* External calls (Ethereum RPC, Injective gRPC) are inputs of the model:
  an `Option`/function field of `TickEnv` holds the result the call (after
  the retry harness) produced during the tick; `none` means the whole
  retry budget failed.
* A Go `panic` is modelled as `none` in an `Option` result; a returned
  `error` is modelled as `false`/`none` at the appropriate level.
* Go's `sort.Slice` guarantees that the resulting slice is a permutation of
  the input, sorted with respect to the `less` function (it is not stable).
  `List.insertionSort` with the reflexive closure of the same comparison
  realises exactly this contract; every property proved below that depends
  on the *identity* of the resulting sequence is proved only under the
  global nonce-uniqueness invariant, under which all sorted permutations
  coincide, so nothing depends on the particular algorithm.
-/

/-- One `PeggySendToCosmosEvent` (legacy deposit); only the fields the oracle
loop reads are modelled. `eventNonce` is the `uint64` value of the on-chain
`EventNonce`. -/
structure PeggySendToCosmosEvent where
  eventNonce : Nat
  blockNumber : Nat
deriving DecidableEq, Repr

/-- One `PeggySendToInjectiveEvent` (deposit). -/
structure PeggySendToInjectiveEvent where
  eventNonce : Nat
  blockNumber : Nat
deriving DecidableEq, Repr

/-- One `PeggyTransactionBatchExecutedEvent` (withdrawal batch). -/
structure PeggyTransactionBatchExecutedEvent where
  eventNonce : Nat
  blockNumber : Nat
deriving DecidableEq, Repr

/-- One `PeggyValsetUpdatedEvent` (validator-set rotation). -/
structure PeggyValsetUpdatedEvent where
  eventNonce : Nat
  blockNumber : Nat
deriving DecidableEq, Repr

/-- One `PeggyERC20DeployedEvent` (token registration). -/
structure PeggyERC20DeployedEvent where
  eventNonce : Nat
  blockNumber : Nat
deriving DecidableEq, Repr

/-- A value of one of the five event kinds, as stored in the `[]any` slice
built by `ethEvents.Sort`. -/
inductive EventAny where
  | oldDeposit (e : PeggySendToCosmosEvent)
  | deposit (e : PeggySendToInjectiveEvent)
  | withdrawal (e : PeggyTransactionBatchExecutedEvent)
  | valsetUpdate (e : PeggyValsetUpdatedEvent)
  | erc20Deployed (e : PeggyERC20DeployedEvent)
deriving DecidableEq, Repr

/-- A Go `any` value as seen by the `switch e := event.(type)` dispatchers:
either one of the five known event kinds, or a value of any other dynamic
type (the `default` branch). -/
inductive GoValue where
  | known (e : EventAny)
  | unknownType
deriving DecidableEq, Repr

/-- The nonce extractor defined inside `ethEvents.Sort` (oracle.go:347-362):
a six-way type switch. The `default` branch panics; the panic is modelled
as `none`. -/
def eventNonceGo : GoValue → Option Nat
  | .known (.oldDeposit e) => some e.eventNonce
  | .known (.deposit e) => some e.eventNonce
  | .known (.valsetUpdate e) => some e.eventNonce
  | .known (.withdrawal e) => some e.eventNonce
  | .known (.erc20Deployed e) => some e.eventNonce
  | .unknownType => none

/-- The nonce of a value of one of the five known kinds (the total
restriction of `eventNonceGo`, which never reaches the panicking branch on
these inputs). -/
def eventNonce (ev : EventAny) : Nat :=
  (eventNonceGo (GoValue.known ev)).getD 0

theorem eventNonceGo_known (ev : EventAny) :
    eventNonceGo (GoValue.known ev) = some (eventNonce ev) := by
  cases ev <;> rfl

/-- The `ethEvents` struct (oracle.go:267-273): five slices, one per kind. -/
structure ethEvents where
  OldDeposits : List PeggySendToCosmosEvent
  Deposits : List PeggySendToInjectiveEvent
  Withdrawals : List PeggyTransactionBatchExecutedEvent
  ValsetUpdates : List PeggyValsetUpdatedEvent
  ERC20Deployments : List PeggyERC20DeployedEvent
deriving DecidableEq, Repr

/-- `ethEvents.Num` (oracle.go:275-277): total number of events. -/
def ethEvents.Num (e : ethEvents) : Nat :=
  e.OldDeposits.length + e.Deposits.length + e.Withdrawals.length +
    e.ValsetUpdates.length + e.ERC20Deployments.length

/-- One of the five identical filtering loops in `ethEvents.Filter`
(oracle.go:279-322): start from a nil slice and append every element whose
nonce exceeds `nonce`. -/
def goFilter (nonce : Nat) (key : α → Nat) (l : List α) : List α :=
  l.foldl (fun acc d => if key d > nonce then acc ++ [d] else acc) []

/-- `ethEvents.Filter` (oracle.go:279-322): per-kind filtering by
`EventNonce > nonce`. -/
def ethEvents.Filter (e : ethEvents) (nonce : Nat) : ethEvents where
  OldDeposits := goFilter nonce PeggySendToCosmosEvent.eventNonce e.OldDeposits
  Deposits := goFilter nonce PeggySendToInjectiveEvent.eventNonce e.Deposits
  Withdrawals := goFilter nonce PeggyTransactionBatchExecutedEvent.eventNonce e.Withdrawals
  ValsetUpdates := goFilter nonce PeggyValsetUpdatedEvent.eventNonce e.ValsetUpdates
  ERC20Deployments := goFilter nonce PeggyERC20DeployedEvent.eventNonce e.ERC20Deployments

/-- The `[]any` slice built by `ethEvents.Sort` before sorting
(oracle.go:324-345), in the source's append order: old deposits, deposits,
withdrawals, ERC20 deployments, valset updates. -/
def flattenEvents (e : ethEvents) : List EventAny :=
  e.OldDeposits.map EventAny.oldDeposit ++ e.Deposits.map EventAny.deposit ++
    e.Withdrawals.map EventAny.withdrawal ++
    e.ERC20Deployments.map EventAny.erc20Deployed ++
    e.ValsetUpdates.map EventAny.valsetUpdate

/-- Comparison by event nonce: the reflexive closure of the `less` function
`eventNonce(events[i]) < eventNonce(events[j])` passed to `sort.Slice`. -/
def nonceLe (a b : EventAny) : Prop :=
  eventNonce a ≤ eventNonce b

/-- Strict comparison by event nonce (the `less` function itself). -/
def nonceLt (a b : EventAny) : Prop :=
  eventNonce a < eventNonce b

instance : DecidableRel nonceLe := fun a b => Nat.decLe (eventNonce a) (eventNonce b)

instance : DecidableRel nonceLt := fun a b => Nat.decLt (eventNonce a) (eventNonce b)

instance : IsTotal EventAny nonceLe := ⟨fun a b => Nat.le_total (eventNonce a) (eventNonce b)⟩

instance : IsTrans EventAny nonceLe := ⟨fun _ _ _ => Nat.le_trans⟩

instance : IsAntisymm EventAny nonceLt :=
  ⟨fun _ _ h h' => absurd (Nat.lt_trans h h') (Nat.lt_irrefl _)⟩

/-- `ethEvents.Sort` (oracle.go:324-369): flatten all five kinds into one
slice and sort it by event nonce (`sort.Slice` with the `less` function
`eventNonce i < eventNonce j`; see the module comment on how `sort.Slice`
is embedded: any algorithm producing a permutation sorted by the
comparison). -/
def ethEvents.Sort (e : ethEvents) : List EventAny :=
  (flattenEvents e).insertionSort nonceLe

theorem goFilter_eq_filter (nonce : Nat) (key : α → Nat) (l : List α) :
    goFilter nonce key l = l.filter (fun d => nonce < key d) := by
  have h : ∀ (acc : List α),
      l.foldl (fun acc d => if key d > nonce then acc ++ [d] else acc) acc =
        acc ++ l.filter (fun d => nonce < key d) := by
    induction l with
    | nil => intro acc; simp
    | cons x xs ih =>
        intro acc
        by_cases hx : nonce < key x
        · simp [List.foldl_cons, List.filter_cons, hx, ih]
        · simp [List.foldl_cons, List.filter_cons, hx, ih]
  simpa using h []

theorem length_flattenEvents (e : ethEvents) :
    (flattenEvents e).length = e.Num := by
  simp [flattenEvents, ethEvents.Num]
  omega

theorem flattenEvents_Filter (e : ethEvents) (n : Nat) :
    flattenEvents (e.Filter n) =
      (flattenEvents e).filter (fun ev => n < eventNonce ev) := by
  simp only [flattenEvents, ethEvents.Filter, goFilter_eq_filter, List.filter_append,
    List.filter_map]
  rfl

/-- Sorted by `nonceLe` plus pairwise-distinct nonces gives sorted by
`nonceLt`. -/
theorem pairwise_lt_of_pairwise_le_nodup {l : List EventAny}
    (hle : l.Pairwise nonceLe) (hnd : (l.map eventNonce).Nodup) :
    l.Pairwise nonceLt := by
  have hne : l.Pairwise (fun a b => eventNonce a ≠ eventNonce b) :=
    (List.pairwise_map).1 hnd
  exact (hle.and hne).imp (fun h => Nat.lt_of_le_of_ne h.1 h.2)

theorem Sort_perm (e : ethEvents) : e.Sort.Perm (flattenEvents e) :=
  List.perm_insertionSort nonceLe (flattenEvents e)

theorem Sort_sorted_le (e : ethEvents) : e.Sort.Pairwise nonceLe :=
  List.sorted_insertionSort nonceLe (flattenEvents e)

theorem nodup_nonces_Sort {e : ethEvents}
    (h : ((flattenEvents e).map eventNonce).Nodup) :
    (e.Sort.map eventNonce).Nodup :=
  (((Sort_perm e).map eventNonce).nodup_iff).2 h

theorem nodup_nonces_Filter {e : ethEvents} (n : Nat)
    (h : ((flattenEvents e).map eventNonce).Nodup) :
    ((flattenEvents (e.Filter n)).map eventNonce).Nodup := by
  rw [flattenEvents_Filter]
  exact h.sublist (((flattenEvents e).filter_sublist).map eventNonce)

/-- Claim C5: for every `EventSet` and every nonce `n`, `Filter(n)` returns
exactly the elements whose `event_nonce` is strictly greater than `n`, each
element staying in its own kind's sequence, and within each kind the result
is a sublist of the original sequence (relative order of survivors
preserved). -/
theorem Filter_exact (e : ethEvents) (n : Nat) :
    ((e.Filter n).OldDeposits = e.OldDeposits.filter (fun d => n < d.eventNonce) ∧
      (e.Filter n).Deposits = e.Deposits.filter (fun d => n < d.eventNonce) ∧
      (e.Filter n).Withdrawals = e.Withdrawals.filter (fun d => n < d.eventNonce) ∧
      (e.Filter n).ValsetUpdates = e.ValsetUpdates.filter (fun d => n < d.eventNonce) ∧
      (e.Filter n).ERC20Deployments = e.ERC20Deployments.filter (fun d => n < d.eventNonce)) ∧
    ((e.Filter n).OldDeposits.Sublist e.OldDeposits ∧
      (e.Filter n).Deposits.Sublist e.Deposits ∧
      (e.Filter n).Withdrawals.Sublist e.Withdrawals ∧
      (e.Filter n).ValsetUpdates.Sublist e.ValsetUpdates ∧
      (e.Filter n).ERC20Deployments.Sublist e.ERC20Deployments) := by
  refine ⟨⟨?_, ?_, ?_, ?_, ?_⟩, ?_, ?_, ?_, ?_, ?_⟩ <;>
    simp only [ethEvents.Filter, goFilter_eq_filter] <;>
    first
      | rfl
      | exact List.filter_sublist _

/-- Claim C6: for every `EventSet` whose event nonces are globally unique
across all five kinds, `Sort()` returns a single sequence that is a
permutation of all the set's events, whose length equals `Num()`, ordered
in strictly ascending `event_nonce`. -/
theorem Sort_strictly_ascending_perm (e : ethEvents)
    (h : ((flattenEvents e).map eventNonce).Nodup) :
    e.Sort.length = e.Num ∧ e.Sort.Perm (flattenEvents e) ∧
      e.Sort.Pairwise nonceLt := by
  refine ⟨?_, Sort_perm e, ?_⟩
  · rw [(Sort_perm e).length_eq, length_flattenEvents]
  · exact pairwise_lt_of_pairwise_le_nodup (Sort_sorted_le e) (nodup_nonces_Sort h)

/-- A sample event set with globally unique nonces, used to instantiate the
hypotheses of the `EventSet` theorems. -/
def sampleEvents : ethEvents where
  OldDeposits := [⟨3, 100⟩]
  Deposits := [⟨1, 90⟩]
  Withdrawals := [⟨4, 101⟩]
  ValsetUpdates := [⟨2, 95⟩]
  ERC20Deployments := []

/-- Witness for C6 at a concrete event set. -/
theorem Sort_strictly_ascending_perm_witness :
    ((flattenEvents sampleEvents).map eventNonce).Nodup ∧
      (sampleEvents.Sort.length = sampleEvents.Num ∧
        sampleEvents.Sort.Perm (flattenEvents sampleEvents) ∧
        sampleEvents.Sort.Pairwise nonceLt) :=
  ⟨by decide, Sort_strictly_ascending_perm sampleEvents (by decide)⟩

/-- Claim C7: for every `EventSet` with globally unique nonces and every
nonce `n`, `Filter(n).Sort()` equals the sequence obtained by applying
`Sort()` to the whole set and then removing the elements whose
`event_nonce` is less than or equal to `n`. -/
theorem Filter_Sort_comm (e : ethEvents) (n : Nat)
    (h : ((flattenEvents e).map eventNonce).Nodup) :
    (e.Filter n).Sort = e.Sort.filter (fun ev => n < eventNonce ev) := by
  have hperm : (e.Filter n).Sort.Perm (e.Sort.filter (fun ev => n < eventNonce ev)) := by
    have h1 : (e.Filter n).Sort.Perm ((flattenEvents e).filter (fun ev => n < eventNonce ev)) := by
      have := Sort_perm (e.Filter n)
      rwa [flattenEvents_Filter] at this
    have h2 : (e.Sort.filter (fun ev => n < eventNonce ev)).Perm
        ((flattenEvents e).filter (fun ev => n < eventNonce ev)) :=
      (Sort_perm e).filter _
    exact h1.trans h2.symm
  have hs1 : (e.Filter n).Sort.Pairwise nonceLt :=
    pairwise_lt_of_pairwise_le_nodup (Sort_sorted_le _) (nodup_nonces_Sort (nodup_nonces_Filter n h))
  have hs2 : (e.Sort.filter (fun ev => n < eventNonce ev)).Pairwise nonceLt :=
    (pairwise_lt_of_pairwise_le_nodup (Sort_sorted_le e) (nodup_nonces_Sort h)).sublist
      (e.Sort.filter_sublist)
  exact List.eq_of_perm_of_sorted hperm hs1 hs2

/-- Witness for C7 at a concrete event set and nonce. -/
theorem Filter_Sort_comm_witness :
    ((flattenEvents sampleEvents).map eventNonce).Nodup ∧
      (sampleEvents.Filter 2).Sort =
        sampleEvents.Sort.filter (fun ev => 2 < eventNonce ev) :=
  ⟨by decide, Filter_Sort_comm sampleEvents 2 (by decide)⟩

/-- The five claim-submission methods of the Injective client that the
dispatcher consumes (`l.inj.Send*Claim`); `true` models a nil error. -/
structure InjClient where
  sendOldDepositClaim : PeggySendToCosmosEvent → Bool
  sendDepositClaim : PeggySendToInjectiveEvent → Bool
  sendValsetClaim : PeggyValsetUpdatedEvent → Bool
  sendWithdrawalClaim : PeggyTransactionBatchExecutedEvent → Bool
  sendERC20DeployedClaim : PeggyERC20DeployedEvent → Bool

/-- `sendEthEventClaim` (oracle.go:250-265): a six-way type switch that
submits the claim matching the event's kind; the `default` branch panics,
modelled as `none`. On a known kind, `some b` holds the submission's
success status. -/
def sendEthEventClaim (inj : InjClient) : GoValue → Option Bool
  | .known (.oldDeposit e) => some (inj.sendOldDepositClaim e)
  | .known (.deposit e) => some (inj.sendDepositClaim e)
  | .known (.valsetUpdate e) => some (inj.sendValsetClaim e)
  | .known (.withdrawal e) => some (inj.sendWithdrawalClaim e)
  | .known (.erc20Deployed e) => some (inj.sendERC20DeployedClaim e)
  | .unknownType => none

/-- Claim C9: for every input value that is one of the five known event
kinds, the claim dispatcher and the Sort nonce extractor never abort
(return `some`); for any value outside the five kinds, each aborts the
process (`none`, modelling the `panic` in the `default` branch) rather
than returning a recoverable error. -/
theorem dispatch_known_total_unknown_aborts (inj : InjClient) (ev : EventAny) :
    (sendEthEventClaim inj (GoValue.known ev)).isSome = true ∧
    (eventNonceGo (GoValue.known ev)).isSome = true ∧
    sendEthEventClaim inj GoValue.unknownType = none ∧
    eventNonceGo GoValue.unknownType = none := by
  refine ⟨?_, ?_, rfl, rfl⟩ <;> cases ev <;> rfl

/-- The response of `LastClaimEventByAddr`: the highest event nonce this
orchestrator has claimed and the source block it was observed in. -/
structure LastClaimEvent where
  ethereumEventNonce : Nat
  ethereumEventHeight : Nat
deriving DecidableEq, Repr

/-- One observable action of the oracle loop, recorded in traces: the
external calls it performs and the sleeps between claim submissions. -/
inductive OAction where
  | queryHead
  | queryEvents (startBlock endBlock : Nat)
  | queryLastClaim
  | submitClaim (ev : EventAny)
  | sleepMs (ms : Nat)
  | queryLastClaimHeight
deriving DecidableEq, Repr

/-- The events submitted in a trace, in order. -/
def submittedEvents (tr : List OAction) : List EventAny :=
  tr.filterMap fun a =>
    match a with
    | OAction.submitClaim ev => some ev
    | _ => none

/-- The `for _, event := range sortedEvents` loop of `sendNewEventClaims`
(oracle.go:195-203): submit each claim in order; a failed submission stops
the loop with an error, a successful one is followed by a 1200 ms sleep.
Returns the trace of submissions and sleeps and the success status. -/
def sendClaimsLoop (inj : InjClient) : List EventAny → List OAction × Bool
  | [] => ([], true)
  | ev :: rest =>
    if (sendEthEventClaim inj (GoValue.known ev)).getD false then
      let r := sendClaimsLoop inj rest
      (OAction.submitClaim ev :: OAction.sleepMs 1200 :: r.1, r.2)
    else
      ([OAction.submitClaim ev], false)

/-- One attempt of the `sendEventsFn` closure inside `sendNewEventClaims`
(oracle.go:181-208): read the last claim event (`none` models a failed
read), filter the scanned events by its nonce, return success on an empty
result, otherwise sort and submit sequentially. -/
def sendNewEventClaimsAttempt (inj : InjClient) (lastClaim : Option LastClaimEvent)
    (events : ethEvents) : List OAction × Bool :=
  match lastClaim with
  | none => ([OAction.queryLastClaim], false)
  | some lc =>
    let newEvents := events.Filter lc.ethereumEventNonce
    if newEvents.Num = 0 then ([OAction.queryLastClaim], true)
    else
      let r := sendClaimsLoop inj newEvents.Sort
      (OAction.queryLastClaim :: r.1, r.2)

theorem sendClaimsLoop_submitted_eq_take (inj : InjClient) (l : List EventAny) :
    ∃ rest, l = submittedEvents (sendClaimsLoop inj l).1 ++ rest := by
  induction l with
  | nil => exact ⟨[], rfl⟩
  | cons ev rest ih =>
      by_cases hs : (sendEthEventClaim inj (GoValue.known ev)).getD false
      · obtain ⟨r, hr⟩ := ih
        refine ⟨r, ?_⟩
        simp only [sendClaimsLoop, hs, if_true, submittedEvents, List.filterMap_cons]
        simpa [submittedEvents] using hr
      · exact ⟨rest, by simp [sendClaimsLoop, hs, submittedEvents]⟩

theorem sendClaimsLoop_sleep_separated (inj : InjClient) (l : List EventAny) :
    (sendClaimsLoop inj l).1.Chain'
      (fun a b => ∀ ev, a = OAction.submitClaim ev → b = OAction.sleepMs 1200) := by
  induction l with
  | nil => simp [sendClaimsLoop]
  | cons ev rest ih =>
      by_cases hs : (sendEthEventClaim inj (GoValue.known ev)).getD false
      · simp only [sendClaimsLoop, hs, if_true]
        refine List.Chain'.cons ?_ (List.Chain'.cons' ih ?_)
        · exact fun _ _ => rfl
        · intro y _ ev' h
          exact absurd h (by simp)
      · simp [sendClaimsLoop, hs]

/-- Claim C1: for every submit attempt that runs with a non-empty filtered
event set (and globally unique nonces, the EventSet invariant), the claims
submitted to the home chain are in strictly ascending `event_nonce` order,
every submitted claim's `event_nonce` is strictly greater than the
`last_claim.ethereum_event_nonce` read at the start of that attempt, and a
1200 ms sleep separates consecutive submissions (every submission except
the last in the trace is immediately followed by a 1200 ms sleep). -/
theorem submit_attempt_ordered_and_gapped (inj : InjClient) (lc : LastClaimEvent)
    (events : ethEvents)
    (hnd : ((flattenEvents events).map eventNonce).Nodup)
    (hne : (events.Filter lc.ethereumEventNonce).Num ≠ 0) :
    (submittedEvents (sendNewEventClaimsAttempt inj (some lc) events).1).Pairwise nonceLt ∧
    (∀ ev ∈ submittedEvents (sendNewEventClaimsAttempt inj (some lc) events).1,
      lc.ethereumEventNonce < eventNonce ev) ∧
    (sendNewEventClaimsAttempt inj (some lc) events).1.Chain'
      (fun a b => ∀ ev, a = OAction.submitClaim ev → b = OAction.sleepMs 1200) := by
  have htr : (sendNewEventClaimsAttempt inj (some lc) events).1 =
      OAction.queryLastClaim ::
        (sendClaimsLoop inj ((events.Filter lc.ethereumEventNonce).Sort)).1 := by
    simp [sendNewEventClaimsAttempt, hne]
  obtain ⟨rest, hrest⟩ :=
    sendClaimsLoop_submitted_eq_take inj ((events.Filter lc.ethereumEventNonce).Sort)
  have hsorted : ((events.Filter lc.ethereumEventNonce).Sort).Pairwise nonceLt :=
    pairwise_lt_of_pairwise_le_nodup (Sort_sorted_le _)
      (nodup_nonces_Sort (nodup_nonces_Filter _ hnd))
  have hsub : submittedEvents (sendNewEventClaimsAttempt inj (some lc) events).1 =
      submittedEvents (sendClaimsLoop inj ((events.Filter lc.ethereumEventNonce).Sort)).1 := by
    rw [htr]
    simp [submittedEvents]
  refine ⟨?_, ?_, ?_⟩
  · rw [hsub]
    exact (List.pairwise_append.1 (hrest ▸ hsorted)).1
  · intro ev hev
    rw [hsub] at hev
    have hmem : ev ∈ (events.Filter lc.ethereumEventNonce).Sort := by
      rw [hrest]; exact List.mem_append_left _ hev
    have hflat : ev ∈ flattenEvents (events.Filter lc.ethereumEventNonce) :=
      (Sort_perm _).mem_iff.1 hmem
    rw [flattenEvents_Filter] at hflat
    exact of_decide_eq_true (List.mem_filter.1 hflat).2
  · rw [htr]
    refine List.Chain'.cons' (sendClaimsLoop_sleep_separated inj _) ?_
    intro y _ ev h
    exact absurd h (by simp)

/-- An Injective client whose five submission methods all succeed. -/
def allOkInj : InjClient where
  sendOldDepositClaim := fun _ => true
  sendDepositClaim := fun _ => true
  sendValsetClaim := fun _ => true
  sendWithdrawalClaim := fun _ => true
  sendERC20DeployedClaim := fun _ => true

/-- Witness for C1 at a concrete client, last claim and event set. -/
theorem submit_attempt_ordered_and_gapped_witness :
    ((flattenEvents sampleEvents).map eventNonce).Nodup ∧
    (sampleEvents.Filter (2 : Nat)).Num ≠ 0 ∧
    ((submittedEvents
        (sendNewEventClaimsAttempt allOkInj (some ⟨2, 0⟩) sampleEvents).1).Pairwise nonceLt ∧
      (∀ ev ∈ submittedEvents
          (sendNewEventClaimsAttempt allOkInj (some ⟨2, 0⟩) sampleEvents).1,
        (2 : Nat) < eventNonce ev) ∧
      (sendNewEventClaimsAttempt allOkInj (some ⟨2, 0⟩) sampleEvents).1.Chain'
        (fun a b => ∀ ev, a = OAction.submitClaim ev → b = OAction.sleepMs 1200)) :=
  ⟨by decide, by decide,
    submit_attempt_ordered_and_gapped allOkInj ⟨2, 0⟩ sampleEvents (by decide) (by decide)⟩

/-- Minimum confirmations for an Ethereum block (oracle.go:18). -/
def ethBlockConfirmationDelay : Nat := 12

/-- Maximum block range for an event query (oracle.go:23). -/
def defaultBlocksToSearch : Nat := 2000

/-- The modulus of Go `uint64` arithmetic. -/
def uint64Mod : Nat := 2 ^ 64

/-- The 48-hour resync interval of oracle.go:93, in nanoseconds (the unit
of Go `time.Duration`). -/
def resyncInterval : Nat := 48 * 60 * 60 * 1000000000

/-- The mutable state of `ethOracleLoop` (oracle.go:39-44): the scan cursor
and the wall-clock timestamp (nanoseconds) of the last resync. -/
structure LoopState where
  lastCheckedEthHeight : Nat
  lastResyncWithInjective : Nat
deriving DecidableEq, Repr

/-- The results the external calls of one tick produce, after the retry
harness: `none` means the whole retry budget failed. `now` is the
wall-clock (nanoseconds) at the `time.Since` check. -/
structure TickEnv where
  headHeight : Option Nat
  getEvents : Nat → Nat → Option ethEvents
  lastClaim : Option LastClaimEvent
  inj : InjClient
  lastClaimBlockHeight : Option Nat
  now : Nat

/-- The body of `autoResync` (oracle.go:224-248): under retry, read the
last claimed block height; on failure return the error before any state
change; on success set the cursor to the height read and the resync
timestamp to the current time. -/
def autoResyncStep (lastClaimBlockHeight : Option Nat) (now : Nat)
    (st : LoopState) : LoopState × Bool :=
  match lastClaimBlockHeight with
  | none => (st, false)
  | some h => ({ lastCheckedEthHeight := h, lastResyncWithInjective := now }, true)

/-- The window-selection prefix of a tick (oracle.go:59-73): `none` means
an early `return nil` (chain too young, or not enough new confirmed
blocks); `some latest` is the clamped inclusive upper bound of the scan.
The sum `lastCheckedEthHeight + defaultBlocksToSearch` is `uint64`
addition and may wrap around. -/
def tickScanWindow (st : LoopState) (headHeight : Nat) : Option Nat :=
  if headHeight ≤ ethBlockConfirmationDelay then none
  else
    let confirmed := headHeight - ethBlockConfirmationDelay
    if confirmed ≤ st.lastCheckedEthHeight then none
    else
      let cap := (st.lastCheckedEthHeight + defaultBlocksToSearch) % uint64Mod
      some (if cap < confirmed then cap else confirmed)

/-- One tick of `ethOracleLoop.Run` (oracle.go:53-100): head query,
confirmation gate, no-progress gate, window clamping, scan, submit,
cursor advance, periodic autoresync. Returns the new state, the trace of
observable actions, and the success status (`false` means the tick
returned an error to the loop driver). -/
def runTick (env : TickEnv) (st : LoopState) : LoopState × List OAction × Bool :=
  match env.headHeight with
  | none => (st, [OAction.queryHead], false)
  | some h =>
    match tickScanWindow st h with
    | none => (st, [OAction.queryHead], true)
    | some latest =>
      match env.getEvents st.lastCheckedEthHeight latest with
      | none =>
          (st, [OAction.queryHead, OAction.queryEvents st.lastCheckedEthHeight latest], false)
      | some events =>
        let sub := sendNewEventClaimsAttempt env.inj env.lastClaim events
        let tr := OAction.queryHead ::
          OAction.queryEvents st.lastCheckedEthHeight latest :: sub.1
        if sub.2 = false then (st, tr, false)
        else if resyncInterval ≤ env.now - st.lastResyncWithInjective then
          let r := autoResyncStep env.lastClaimBlockHeight env.now
            { st with lastCheckedEthHeight := latest }
          (r.1, tr ++ [OAction.queryLastClaimHeight], r.2)
        else ({ st with lastCheckedEthHeight := latest }, tr, true)

/-- Claim C8: running `autoresync` twice in a row with `last_claim_event`
returning the same value both times leaves the loop state equal to the
state after running it once, and the resulting state is a pure function of
the response (and the run's clock): it does not depend on the prior loop
state. -/
theorem autoresync_idempotent_pure (h now now1 now2 : Nat) (st st' : LoopState) :
    (autoResyncStep (some h) now (autoResyncStep (some h) now st).1).1 =
      (autoResyncStep (some h) now st).1 ∧
    (autoResyncStep (some h) now2 (autoResyncStep (some h) now1 st).1).1 =
      (autoResyncStep (some h) now2 st).1 ∧
    (autoResyncStep (some h) now st).1 = (autoResyncStep (some h) now st').1 :=
  ⟨rfl, rfl, rfl⟩

theorem sendClaimsLoop_actions (inj : InjClient) (l : List EventAny) (a : OAction)
    (ha : a ∈ (sendClaimsLoop inj l).1) :
    (∃ ev, a = OAction.submitClaim ev) ∨ a = OAction.sleepMs 1200 := by
  induction l with
  | nil => simp [sendClaimsLoop] at ha
  | cons ev rest ih =>
      by_cases hs : (sendEthEventClaim inj (GoValue.known ev)).getD false
      · simp only [sendClaimsLoop, hs, if_true, List.mem_cons] at ha
        rcases ha with rfl | rfl | ha
        · exact Or.inl ⟨ev, rfl⟩
        · exact Or.inr rfl
        · exact ih ha
      · simp only [sendClaimsLoop, hs, if_false, Bool.false_eq_true, List.mem_singleton] at ha
        exact Or.inl ⟨ev, ha⟩

theorem sendAttempt_actions (inj : InjClient) (lcO : Option LastClaimEvent)
    (events : ethEvents) (a : OAction)
    (ha : a ∈ (sendNewEventClaimsAttempt inj lcO events).1) :
    a = OAction.queryLastClaim ∨ (∃ ev, a = OAction.submitClaim ev) ∨
      a = OAction.sleepMs 1200 := by
  rcases lcO with _ | lc
  · simp only [sendNewEventClaimsAttempt, List.mem_singleton] at ha
    exact Or.inl ha
  · by_cases hn : (events.Filter lc.ethereumEventNonce).Num = 0
    · simp only [sendNewEventClaimsAttempt, hn, if_true, List.mem_singleton] at ha
      exact Or.inl ha
    · simp only [sendNewEventClaimsAttempt, hn, if_false, List.mem_cons] at ha
      rcases ha with rfl | ha
      · exact Or.inl rfl
      · exact Or.inr (sendClaimsLoop_actions inj _ a ha)

theorem queryEvents_not_mem_attempt (inj : InjClient) (lcO : Option LastClaimEvent)
    (events : ethEvents) (a b : Nat) :
    OAction.queryEvents a b ∉ (sendNewEventClaimsAttempt inj lcO events).1 := by
  intro hmem
  rcases sendAttempt_actions inj lcO events _ hmem with h | ⟨ev, h⟩ | h <;> cases h

theorem queryLCH_not_mem_attempt (inj : InjClient) (lcO : Option LastClaimEvent)
    (events : ethEvents) :
    OAction.queryLastClaimHeight ∉ (sendNewEventClaimsAttempt inj lcO events).1 := by
  intro hmem
  rcases sendAttempt_actions inj lcO events _ hmem with h | ⟨ev, h⟩ | h <;> cases h
theorem queryEvents_mem_tick (env : TickEnv) (st : LoopState) (a b : Nat)
    (hmem : OAction.queryEvents a b ∈ (runTick env st).2.1) :
    a = st.lastCheckedEthHeight ∧
      ∃ h, env.headHeight = some h ∧ tickScanWindow st h = some b := by
  cases hh : env.headHeight with
  | none => simp [runTick, hh] at hmem
  | some h =>
    cases hw : tickScanWindow st h with
    | none => simp [runTick, hh, hw] at hmem
    | some latest =>
      cases hge : env.getEvents st.lastCheckedEthHeight latest with
      | none =>
          simp [runTick, hh, hw, hge] at hmem
          exact ⟨hmem.1, h, rfl, by rw [hmem.2]; exact hw⟩
      | some events =>
          by_cases hsub : (sendNewEventClaimsAttempt env.inj env.lastClaim events).2 = false
          · simp [runTick, hh, hw, hge, hsub,
              queryEvents_not_mem_attempt env.inj env.lastClaim events a b] at hmem
            exact ⟨hmem.1, h, rfl, by rw [hmem.2]; exact hw⟩
          · by_cases hres : resyncInterval ≤ env.now - st.lastResyncWithInjective
            · simp [runTick, hh, hw, hge, hsub, hres,
                queryEvents_not_mem_attempt env.inj env.lastClaim events a b] at hmem
              exact ⟨hmem.1, h, rfl, by rw [hmem.2]; exact hw⟩
            · simp [runTick, hh, hw, hge, hsub, hres,
                queryEvents_not_mem_attempt env.inj env.lastClaim events a b] at hmem
              exact ⟨hmem.1, h, rfl, by rw [hmem.2]; exact hw⟩

theorem tick_success_scan_sets_cursor (env : TickEnv) (st : LoopState) (a b : Nat)
    (hok : (runTick env st).2.2 = true)
    (hnores : OAction.queryLastClaimHeight ∉ (runTick env st).2.1)
    (hmem : OAction.queryEvents a b ∈ (runTick env st).2.1) :
    (runTick env st).1.lastCheckedEthHeight = b := by
  cases hh : env.headHeight with
  | none => simp [runTick, hh] at hmem
  | some h =>
    cases hw : tickScanWindow st h with
    | none => simp [runTick, hh, hw] at hmem
    | some latest =>
      cases hge : env.getEvents st.lastCheckedEthHeight latest with
      | none => simp [runTick, hh, hw, hge] at hok
      | some events =>
          by_cases hsub : (sendNewEventClaimsAttempt env.inj env.lastClaim events).2 = false
          · simp [runTick, hh, hw, hge, hsub] at hok
          · by_cases hres : resyncInterval ≤ env.now - st.lastResyncWithInjective
            · simp [runTick, hh, hw, hge, hsub, hres] at hnores
            · simp [runTick, hh, hw, hge, hsub, hres,
                queryEvents_not_mem_attempt env.inj env.lastClaim events a b] at hmem
              simp [runTick, hh, hw, hge, hsub, hres, hmem.2]

/-- Claim C2, amended: if a tick returns an error, `last_checked_height` is
unchanged — unless the failing step is the 48-hour autoresync read, which
runs after the cursor has already advanced; in that case the cursor holds
the scanned window's upper bound. -/
theorem tick_error_cursor_unchanged_unless_resync (env : TickEnv) (st : LoopState)
    (hfail : (runTick env st).2.2 = false) :
    (runTick env st).1.lastCheckedEthHeight = st.lastCheckedEthHeight ∨
      (env.lastClaimBlockHeight = none ∧
        OAction.queryEvents st.lastCheckedEthHeight
          ((runTick env st).1.lastCheckedEthHeight) ∈ (runTick env st).2.1) := by
  cases hh : env.headHeight with
  | none => left; simp [runTick, hh]
  | some h =>
    cases hw : tickScanWindow st h with
    | none => left; simp [runTick, hh, hw]
    | some latest =>
      cases hge : env.getEvents st.lastCheckedEthHeight latest with
      | none => left; simp [runTick, hh, hw, hge]
      | some events =>
          by_cases hsub : (sendNewEventClaimsAttempt env.inj env.lastClaim events).2 = false
          · left; simp [runTick, hh, hw, hge, hsub]
          · by_cases hres : resyncInterval ≤ env.now - st.lastResyncWithInjective
            · cases hlbh : env.lastClaimBlockHeight with
              | none =>
                  right
                  refine ⟨rfl, ?_⟩
                  simp [runTick, hh, hw, hge, hsub, hres, hlbh, autoResyncStep]
              | some hgt => simp [runTick, hh, hw, hge, hsub, hres, hlbh, autoResyncStep] at hfail
            · simp [runTick, hh, hw, hge, hsub, hres] at hfail

theorem tickScanWindow_gt (st : LoopState) (h latest : Nat)
    (hnw : st.lastCheckedEthHeight + defaultBlocksToSearch < uint64Mod)
    (hw : tickScanWindow st h = some latest) :
    st.lastCheckedEthHeight < latest := by
  simp only [tickScanWindow, ethBlockConfirmationDelay, defaultBlocksToSearch,
    uint64Mod] at hw hnw
  split at hw
  · cases hw
  · split at hw
    · cases hw
    · injection hw with hw
      rw [Nat.mod_eq_of_lt hnw] at hw
      split at hw <;> omega

theorem tickScanWindow_eq (st : LoopState) (h : Nat)
    (hnw : st.lastCheckedEthHeight + defaultBlocksToSearch < uint64Mod) :
    tickScanWindow st h =
      if h ≤ st.lastCheckedEthHeight + ethBlockConfirmationDelay then none
      else some (min (h - ethBlockConfirmationDelay)
        (st.lastCheckedEthHeight + defaultBlocksToSearch)) := by
  simp only [tickScanWindow, ethBlockConfirmationDelay, defaultBlocksToSearch,
    uint64Mod] at hnw ⊢
  by_cases h1 : h ≤ 12
  · rw [if_pos h1, if_pos (by omega)]
  · rw [if_neg h1]
    by_cases h2 : h - 12 ≤ st.lastCheckedEthHeight
    · rw [if_pos h2, if_pos (by omega)]
    · rw [if_neg h2, Nat.mod_eq_of_lt hnw,
        if_neg (show ¬h ≤ st.lastCheckedEthHeight + 12 by omega)]
      congr 1
      rw [Nat.min_def]
      split <;> split <;> omega

theorem tick_scans_window (env : TickEnv) (st : LoopState) (h latest : Nat)
    (hh : env.headHeight = some h) (hw : tickScanWindow st h = some latest) :
    OAction.queryEvents st.lastCheckedEthHeight latest ∈ (runTick env st).2.1 := by
  cases hge : env.getEvents st.lastCheckedEthHeight latest with
  | none => simp [runTick, hh, hw, hge]
  | some events =>
      by_cases hsub : (sendNewEventClaimsAttempt env.inj env.lastClaim events).2 = false
      · simp [runTick, hh, hw, hge, hsub]
      · by_cases hres : resyncInterval ≤ env.now - st.lastResyncWithInjective
        · simp [runTick, hh, hw, hge, hsub, hres]
        · simp [runTick, hh, hw, hge, hsub, hres]

/-- Claim C3, amended: for every tick that completes without error and in
which the periodic autoresync does not run, `last_checked_height` after
the tick is ≥ its value before it (given that the cursor is not within
`defaultBlocksToSearch` of the uint64 wrap-around); in an error-free tick
whose autoresync runs, the cursor is instead set to the height read from
the home chain, which may be smaller than the previous cursor. -/
theorem tick_success_cursor_monotone_unless_resync (env : TickEnv) (st : LoopState)
    (hok : (runTick env st).2.2 = true)
    (hnw : st.lastCheckedEthHeight + defaultBlocksToSearch < uint64Mod) :
    (OAction.queryLastClaimHeight ∉ (runTick env st).2.1 →
      st.lastCheckedEthHeight ≤ (runTick env st).1.lastCheckedEthHeight) ∧
    (OAction.queryLastClaimHeight ∈ (runTick env st).2.1 →
      env.lastClaimBlockHeight = some ((runTick env st).1.lastCheckedEthHeight)) := by
  cases hh : env.headHeight with
  | none => simp [runTick, hh] at hok
  | some h =>
    cases hw : tickScanWindow st h with
    | none =>
        constructor
        · intro _
          simp [runTick, hh, hw]
        · intro hmem
          simp [runTick, hh, hw] at hmem
    | some latest =>
      have hlt : st.lastCheckedEthHeight < latest := tickScanWindow_gt st h latest hnw hw
      cases hge : env.getEvents st.lastCheckedEthHeight latest with
      | none => simp [runTick, hh, hw, hge] at hok
      | some events =>
          by_cases hsub : (sendNewEventClaimsAttempt env.inj env.lastClaim events).2 = false
          · simp [runTick, hh, hw, hge, hsub] at hok
          · by_cases hres : resyncInterval ≤ env.now - st.lastResyncWithInjective
            · cases hlbh : env.lastClaimBlockHeight with
              | none => simp [runTick, hh, hw, hge, hsub, hres, hlbh, autoResyncStep] at hok
              | some hgt =>
                  constructor
                  · intro hno
                    exact absurd (by simp [runTick, hh, hw, hge, hsub, hres, hlbh,
                      autoResyncStep]) hno
                  · intro _
                    simp [runTick, hh, hw, hge, hsub, hres, hlbh, autoResyncStep]
            · constructor
              · intro _
                simp only [runTick, hh, hw, hge, hsub, hres]
                simp
                omega
              · intro hmem
                simp [runTick, hh, hw, hge, hsub, hres,
                  queryLCH_not_mem_attempt env.inj env.lastClaim events] at hmem

/-- Claim C4, amended: for every tick with head height `h` and cursor `c`,
provided `c + defaultBlocksToSearch` does not wrap around uint64: if
`h ≤ c + 12` then no event query is made, no claim is submitted and the
state is unchanged; otherwise the scanned window is
`[c, min (h − 12) (c + 2000)]`, whose width never exceeds 2000. -/
theorem tick_gate_and_window_clamp (env : TickEnv) (st : LoopState) (h : Nat)
    (hh : env.headHeight = some h)
    (hnw : st.lastCheckedEthHeight + defaultBlocksToSearch < uint64Mod) :
    (h ≤ st.lastCheckedEthHeight + ethBlockConfirmationDelay →
      (∀ a b, OAction.queryEvents a b ∉ (runTick env st).2.1) ∧
      (∀ ev, OAction.submitClaim ev ∉ (runTick env st).2.1) ∧
      (runTick env st).1 = st) ∧
    (st.lastCheckedEthHeight + ethBlockConfirmationDelay < h →
      OAction.queryEvents st.lastCheckedEthHeight
          (min (h - ethBlockConfirmationDelay)
            (st.lastCheckedEthHeight + defaultBlocksToSearch)) ∈ (runTick env st).2.1 ∧
      min (h - ethBlockConfirmationDelay) (st.lastCheckedEthHeight + defaultBlocksToSearch) -
          st.lastCheckedEthHeight ≤ defaultBlocksToSearch) := by
  constructor
  · intro hle
    have hw : tickScanWindow st h = none := by
      rw [tickScanWindow_eq st h hnw, if_pos hle]
    refine ⟨?_, ?_, ?_⟩
    · intro a b
      simp [runTick, hh, hw]
    · intro ev
      simp [runTick, hh, hw]
    · simp [runTick, hh, hw]
  · intro hgt
    have hw : tickScanWindow st h =
        some (min (h - ethBlockConfirmationDelay)
          (st.lastCheckedEthHeight + defaultBlocksToSearch)) := by
      rw [tickScanWindow_eq st h hnw, if_neg (by omega)]
    refine ⟨tick_scans_window env st h _ hh hw, ?_⟩
    simp only [ethBlockConfirmationDelay, defaultBlocksToSearch] at *
    omega

/-- An event query returning the empty set on every range. -/
def emptyEventsFn : Nat → Nat → Option ethEvents :=
  fun _ _ => some ⟨[], [], [], [], []⟩

/-- Loop state with the cursor at 5000 and a resync long overdue. -/
def stResync : LoopState := ⟨5000, 0⟩

/-- A tick environment in which head query, scan and submit succeed, the
48-hour autoresync triggers, and its home-chain read fails. -/
def envResyncFail : TickEnv where
  headHeight := some 5100
  getEvents := emptyEventsFn
  lastClaim := some ⟨6, 4000⟩
  inj := allOkInj
  lastClaimBlockHeight := none
  now := resyncInterval

/-- Counterexample to claim C2 as stated: a tick whose head query, scan and
submit all succeed, whose 48-hour autoresync triggers and fails after
retries, returns an error — yet `last_checked_height` has advanced from
5000 to the scanned window's upper bound 5088. -/
theorem tick_error_advances_cursor_cex :
    (runTick envResyncFail stResync).2.2 = false ∧
    stResync.lastCheckedEthHeight = 5000 ∧
    (runTick envResyncFail stResync).1.lastCheckedEthHeight = 5088 := by decide

/-- Witness for the amended claim C2, at a tick whose head query fails. -/
theorem tick_error_cursor_unchanged_unless_resync_witness :
    (runTick ⟨none, emptyEventsFn, none, allOkInj, none, 0⟩ stResync).2.2 = false ∧
    ((runTick ⟨none, emptyEventsFn, none, allOkInj, none, 0⟩ stResync).1.lastCheckedEthHeight =
        stResync.lastCheckedEthHeight ∨
      ((⟨none, emptyEventsFn, none, allOkInj, none, 0⟩ : TickEnv).lastClaimBlockHeight = none ∧
        OAction.queryEvents stResync.lastCheckedEthHeight
            ((runTick ⟨none, emptyEventsFn, none, allOkInj, none, 0⟩ stResync).1.lastCheckedEthHeight) ∈
          (runTick ⟨none, emptyEventsFn, none, allOkInj, none, 0⟩ stResync).2.1)) :=
  ⟨by decide, tick_error_cursor_unchanged_unless_resync _ stResync (by decide)⟩

/-- A tick environment whose 48-hour autoresync triggers and successfully
reads a last-claim height of 4200 from the home chain. -/
def envResyncRewind : TickEnv where
  headHeight := some 5100
  getEvents := emptyEventsFn
  lastClaim := some ⟨6, 4000⟩
  inj := allOkInj
  lastClaimBlockHeight := some 4200
  now := resyncInterval

/-- Counterexample to claim C3 as stated: a tick that completes without
error, in which the periodic autoresync runs, moves `last_checked_height`
backward from 5000 to 4200. -/
theorem tick_success_rewinds_cursor_cex :
    (runTick envResyncRewind stResync).2.2 = true ∧
    stResync.lastCheckedEthHeight = 5000 ∧
    (runTick envResyncRewind stResync).1.lastCheckedEthHeight = 4200 := by decide

/-- Witness for the amended claim C3, at a tick whose autoresync runs. -/
theorem tick_success_cursor_monotone_unless_resync_witness :
    (runTick envResyncRewind stResync).2.2 = true ∧
    stResync.lastCheckedEthHeight + defaultBlocksToSearch < uint64Mod ∧
    ((OAction.queryLastClaimHeight ∉ (runTick envResyncRewind stResync).2.1 →
        stResync.lastCheckedEthHeight ≤
          (runTick envResyncRewind stResync).1.lastCheckedEthHeight) ∧
      (OAction.queryLastClaimHeight ∈ (runTick envResyncRewind stResync).2.1 →
        envResyncRewind.lastClaimBlockHeight =
          some ((runTick envResyncRewind stResync).1.lastCheckedEthHeight))) :=
  ⟨by decide, by decide,
    tick_success_cursor_monotone_unless_resync envResyncRewind stResync (by decide) (by decide)⟩

/-- Loop state with the cursor within 1000 blocks of the uint64 maximum. -/
def stNearMax : LoopState := ⟨2 ^ 64 - 1000, 0⟩

/-- A tick environment whose head height is the uint64 maximum. -/
def envNearMax : TickEnv where
  headHeight := some (2 ^ 64 - 1)
  getEvents := emptyEventsFn
  lastClaim := some ⟨0, 0⟩
  inj := allOkInj
  lastClaimBlockHeight := none
  now := 0

/-- Counterexample to claim C4 as stated: with the cursor at
`2^64 − 1000` and head `2^64 − 1` (so `h > c + 12`), the uint64 sum
`c + 2000` wraps to 1000, so the queried window is `[c, 1000]` rather than
the claimed `[c, min (h − 12) (c + 2000)] = [c, 2^64 − 13]`. -/
theorem tick_window_clamp_wraps_cex :
    stNearMax.lastCheckedEthHeight + ethBlockConfirmationDelay < 2 ^ 64 - 1 ∧
    OAction.queryEvents stNearMax.lastCheckedEthHeight 1000 ∈
      (runTick envNearMax stNearMax).2.1 ∧
    OAction.queryEvents stNearMax.lastCheckedEthHeight
        (min ((2 ^ 64 - 1) - ethBlockConfirmationDelay)
          (stNearMax.lastCheckedEthHeight + defaultBlocksToSearch)) ∉
      (runTick envNearMax stNearMax).2.1 := by decide

/-- A tick environment for a plain successful scan with no resync due. -/
def envSimple : TickEnv where
  headHeight := some 5100
  getEvents := emptyEventsFn
  lastClaim := some ⟨6, 4000⟩
  inj := allOkInj
  lastClaimBlockHeight := none
  now := 0

/-- Witness for the amended claim C4, at a concrete scanning tick. -/
theorem tick_gate_and_window_clamp_witness :
    envSimple.headHeight = some 5100 ∧
    stResync.lastCheckedEthHeight + defaultBlocksToSearch < uint64Mod ∧
    ((5100 ≤ stResync.lastCheckedEthHeight + ethBlockConfirmationDelay →
        (∀ a b, OAction.queryEvents a b ∉ (runTick envSimple stResync).2.1) ∧
        (∀ ev, OAction.submitClaim ev ∉ (runTick envSimple stResync).2.1) ∧
        (runTick envSimple stResync).1 = stResync) ∧
      (stResync.lastCheckedEthHeight + ethBlockConfirmationDelay < 5100 →
        OAction.queryEvents stResync.lastCheckedEthHeight
            (min (5100 - ethBlockConfirmationDelay)
              (stResync.lastCheckedEthHeight + defaultBlocksToSearch)) ∈
          (runTick envSimple stResync).2.1 ∧
        min (5100 - ethBlockConfirmationDelay)
            (stResync.lastCheckedEthHeight + defaultBlocksToSearch) -
            stResync.lastCheckedEthHeight ≤ defaultBlocksToSearch)) :=
  ⟨rfl, by decide, tick_gate_and_window_clamp envSimple stResync 5100 rfl (by decide)⟩

/-- Claim C10, amended: for every pair of consecutive successful ticks in
which the first tick does not run autoresync and both ticks scan, the
second tick's scan range starts at exactly the block the first tick's
range ended at (the cursor is set to the first window's inclusive upper
bound and reused as the second's lower bound). -/
theorem consecutive_scans_share_boundary (env1 env2 : TickEnv) (st : LoopState)
    (a b a2 b2 : Nat)
    (hok1 : (runTick env1 st).2.2 = true)
    (hnores : OAction.queryLastClaimHeight ∉ (runTick env1 st).2.1)
    (hmem1 : OAction.queryEvents a b ∈ (runTick env1 st).2.1)
    (hmem2 : OAction.queryEvents a2 b2 ∈ (runTick env2 (runTick env1 st).1).2.1) :
    a2 = b := by
  have h1 : (runTick env1 st).1.lastCheckedEthHeight = b :=
    tick_success_scan_sets_cursor env1 st a b hok1 hnores hmem1
  have h2 := (queryEvents_mem_tick env2 (runTick env1 st).1 a2 b2 hmem2).1
  rw [h2, h1]

/-- A tick environment scanning from a rewound cursor after a resync. -/
def envAfterRewind : TickEnv where
  headHeight := some 4300
  getEvents := emptyEventsFn
  lastClaim := some ⟨6, 4000⟩
  inj := allOkInj
  lastClaimBlockHeight := none
  now := resyncInterval

/-- Counterexample to claim C10 as stated: two consecutive successful
ticks, the first scanning `[5000, 5088]` and then resyncing the cursor to
4200, the second scanning `[4200, 4288]` — its range does not start at the
block the first range ended at. -/
theorem consecutive_scans_boundary_cex :
    (runTick envResyncRewind stResync).2.2 = true ∧
    OAction.queryEvents 5000 5088 ∈ (runTick envResyncRewind stResync).2.1 ∧
    (runTick envAfterRewind (runTick envResyncRewind stResync).1).2.2 = true ∧
    OAction.queryEvents 4200 4288 ∈
      (runTick envAfterRewind (runTick envResyncRewind stResync).1).2.1 ∧
    (4200 : Nat) ≠ 5088 := by decide

/-- A second plain scanning environment, following `envSimple`. -/
def envSimple2 : TickEnv where
  headHeight := some 5200
  getEvents := emptyEventsFn
  lastClaim := some ⟨6, 4000⟩
  inj := allOkInj
  lastClaimBlockHeight := none
  now := 0

/-- Witness for the amended claim C10, at two concrete consecutive ticks. -/
theorem consecutive_scans_share_boundary_witness :
    ((runTick envSimple stResync).2.2 = true ∧
      OAction.queryLastClaimHeight ∉ (runTick envSimple stResync).2.1 ∧
      OAction.queryEvents 5000 5088 ∈ (runTick envSimple stResync).2.1 ∧
      OAction.queryEvents 5088 5188 ∈
        (runTick envSimple2 (runTick envSimple stResync).1).2.1) ∧
    (5088 : Nat) = 5088 :=
  ⟨⟨by decide, by decide, by decide, by decide⟩,
    consecutive_scans_share_boundary envSimple envSimple2 stResync 5000 5088 5088 5188
      (by decide) (by decide) (by decide) (by decide)⟩
